import Mathlib

/-!
Shallow embedding of the JWE key-management core of the repository
(`jwe/internal/keyenc/keyenc.go` and `jwk/ecdsa.go`).

Byte slices are modelled as `List Nat` (each element a byte value), Go
`error` results as `Except KeyencError`, and external collaborators
(the Go standard library's crypto primitives, the repository's
`concatkdf`/`keygen`/`ecutil`/`jwa`/content-cipher packages that are
not part of the two source files) as explicit function parameters or
record fields, or as definitions modelled from the specification where
so noted.
-/

namespace Keyenc

/-- Error values produced by the key-management core.  Go reports
errors as wrapped strings; we keep one constructor per distinct
error site. -/
inductive KeyencError where
  | inputShape       -- "keywrap input must be 8 byte blocks" / "keyunwrap input must be 8 byte blocks"
  | integrity        -- "key unwrap: failed to unwrap key"
  | panicked         -- a Go runtime panic (e.g. make with negative length)
  | inputSize        -- "input size for key decrypt is incorrect"
  | genFail          -- "failed to generate key"
  | primFail         -- "failed to decrypt via PKCS1v15"
  | invalidAlg       -- "invalid ... algorithm"
  | contentCipherFail -- "failed to create content cipher"
  | deriveFail       -- "failed to derive ... encryption key"
  | cipherFail       -- "failed to create cipher"
  | exchange         -- "failed to exchange public key"
  | curveMismatch    -- "expect EC curve type ..." / "server key is not on the curve"
  | kdfFail          -- "failed to read kdf"
  deriving DecidableEq, Repr

/-- A 128-bit block cipher as consumed by `Wrap`/`Unwrap`
(`cipher.Block` in Go): an encrypt and a decrypt function on byte
lists.  A real `cipher.Block` always maps 16-byte blocks to 16-byte
blocks; theorems assume this where needed. -/
structure BlockCipher where
  encrypt : List Nat → List Nat
  decrypt : List Nat → List Nat

/-- `var keywrapDefaultIV = []byte{0xa6, …}` -/
def keywrapDefaultIV : List Nat := [0xa6, 0xa6, 0xa6, 0xa6, 0xa6, 0xa6, 0xa6, 0xa6]

/-- `const keywrapChunkLen = 8` -/
def keywrapChunkLen : Nat := 8

/-- XOR of two byte lists, pointwise (`buffer[i] = buffer[i] ^ tBytes[i]`). -/
def xorBytes (a b : List Nat) : List Nat := List.zipWith (fun x y => x ^^^ y) a b

/-- `binary.BigEndian.PutUint64`: the 8-byte big-endian encoding of
`v` as a `uint64` (hence the reduction mod 2^64). -/
def be64 (v : Nat) : List Nat :=
  let w := v % 2 ^ 64
  [w >>> 56 % 256, w >>> 48 % 256, w >>> 40 % 256, w >>> 32 % 256,
   w >>> 24 % 256, w >>> 16 % 256, w >>> 8 % 256, w % 256]

/-- `binary.BigEndian.PutUint32`: the 4-byte big-endian encoding of
`v` as a `uint32`. -/
def be32 (v : Nat) : List Nat :=
  let w := v % 2 ^ 32
  [w >>> 24 % 256, w >>> 16 % 256, w >>> 8 % 256, w % 256]

/-- The initial block array of `Wrap`:
`r[i] = cek[i*keywrapChunkLen : i*keywrapChunkLen+8]`
(`copy(r[i], cek[i*keywrapChunkLen:])` into an 8-byte chunk). -/
def toChunks (cek : List Nat) (n : Nat) : List (List Nat) :=
  (List.range n).map fun i => (cek.drop (i * keywrapChunkLen)).take keywrapChunkLen

/-- One iteration of the `Wrap` loop, on the state
`(A, R) = (buffer[:8], r)`:
`buffer = E(A ‖ R[t%n])`; `A = buffer[:8] XOR tBytes(t+1)`;
`R[t%n] = buffer[8:16]`. -/
def wrapRound (kek : BlockCipher) (n t : Nat) (s : List Nat × List (List Nat)) :
    List Nat × List (List Nat) :=
  let buffer := kek.encrypt (s.1 ++ s.2.getD (t % n) [])
  (xorBytes (buffer.take keywrapChunkLen) (be64 (t + 1)),
   s.2.set (t % n) ((buffer.drop keywrapChunkLen).take keywrapChunkLen))

/-- The `for t := 0; t < 6*n; t++` loop of `Wrap`. -/
def wrapFold (kek : BlockCipher) (n : Nat) (s : List Nat × List (List Nat)) :
    List Nat × List (List Nat) :=
  (List.range (6 * n)).foldl (fun st t => wrapRound kek n t st) s

/-- `Wrap` (keyenc.go lines 522–559): RFC 3394 key wrap over an opaque
block cipher.  The only failure is the length check at entry. -/
def Wrap (kek : BlockCipher) (cek : List Nat) : Except KeyencError (List Nat) :=
  if cek.length % 8 ≠ 0 then .error .inputShape
  else
    let n := cek.length / keywrapChunkLen
    let s := wrapFold kek n (keywrapDefaultIV, toChunks cek n)
    .ok (s.1 ++ s.2.flatten)

/-- One iteration of the `Unwrap` loop, on the state
`(A, R) = (buffer[:8], r)`:
`buffer = D((A XOR tBytes(t+1)) ‖ R[t%n])`; `A = buffer[:8]`;
`R[t%n] = buffer[8:16]`. -/
def unwrapRound (kek : BlockCipher) (n t : Nat) (s : List Nat × List (List Nat)) :
    List Nat × List (List Nat) :=
  let buffer := kek.decrypt (xorBytes s.1 (be64 (t + 1)) ++ s.2.getD (t % n) [])
  (buffer.take keywrapChunkLen,
   s.2.set (t % n) ((buffer.drop keywrapChunkLen).take keywrapChunkLen))

/-- The `for t := 6*n - 1; t >= 0; t--` loop of `Unwrap`. -/
def unwrapFold (kek : BlockCipher) (n : Nat) (s : List Nat × List (List Nat)) :
    List Nat × List (List Nat) :=
  ((List.range (6 * n)).reverse).foldl (fun st t => unwrapRound kek n t st) s

/-- `Unwrap` (keyenc.go lines 561–611).  The only up-front validation is
`len(ciphertxt) % keywrapChunkLen != 0`; there is no minimum-length
check.  For a zero-length input the Go code computes
`n = len/8 - 1 = -1` and `make([][]byte, n)` panics, modelled here as
`.error .panicked`.  The final `subtle.ConstantTimeCompare` against the
default IV is modelled as list equality. -/
def Unwrap (kek : BlockCipher) (ciphertxt : List Nat) : Except KeyencError (List Nat) :=
  if ciphertxt.length % 8 ≠ 0 then .error .inputShape
  else if ciphertxt.length = 0 then .error .panicked
  else
    let n := ciphertxt.length / keywrapChunkLen - 1
    let r := (List.range n).map fun i =>
      (ciphertxt.drop ((i + 1) * keywrapChunkLen)).take keywrapChunkLen
    let s := unwrapFold kek n (ciphertxt.take keywrapChunkLen, r)
    if s.1 = keywrapDefaultIV then .ok s.2.flatten else .error .integrity

/-- The identity "cipher": useful as a concrete `cipher.Block` instance
for evaluating the wrap/unwrap loops. -/
def idCipher : BlockCipher := ⟨id, id⟩

/-- What Go guarantees of any `cipher.Block` with 128-bit block size:
encryption maps 16-byte blocks to 16-byte blocks, and decryption
inverts encryption on 16-byte blocks. -/
def ValidCipher (k : BlockCipher) : Prop :=
  (∀ b : List Nat, b.length = 16 → (k.encrypt b).length = 16) ∧
  (∀ b : List Nat, b.length = 16 → k.decrypt (k.encrypt b) = b)

/-- Well-formedness of the `(A, R)` loop state: `A` is one 8-byte
block and `R` holds `n` 8-byte blocks. -/
def WFState (n : Nat) (s : List Nat × List (List Nat)) : Prop :=
  s.1.length = 8 ∧ s.2.length = n ∧ ∀ c ∈ s.2, c.length = 8

theorem be64_length (v : Nat) : (be64 v).length = 8 := rfl

theorem xorBytes_length (a b : List Nat) :
    (xorBytes a b).length = min a.length b.length := by
  simp [xorBytes]

theorem xorBytes_cancel : ∀ (a b : List Nat), a.length ≤ b.length →
    xorBytes (xorBytes a b) b = a
  | [], _, _ => rfl
  | x :: a, y :: b, h => by
    simp only [xorBytes, List.zipWith_cons_cons, Nat.xor_cancel_right, List.cons.injEq, true_and]
    exact xorBytes_cancel a b (Nat.le_of_succ_le_succ h)

theorem set_getD_self : ∀ (l : List (List Nat)) (i : Nat), i < l.length →
    l.set i (l.getD i []) = l
  | _ :: _, 0, _ => rfl
  | x :: l, i + 1, h => by
    simp only [List.set, List.getD_cons_succ, List.cons.injEq, true_and]
    exact set_getD_self l i (Nat.lt_of_succ_lt_succ h)

theorem getD_mem (l : List (List Nat)) (i : Nat) (h : i < l.length) :
    l.getD i [] ∈ l := by
  rw [List.getD_eq_getElem l [] h]
  exact List.getElem_mem h

theorem wrapRound_wf (kek : BlockCipher)
    (henc : ∀ b : List Nat, b.length = 16 → (kek.encrypt b).length = 16)
    (n t : Nat) (hn : 0 < n) (s : List Nat × List (List Nat))
    (hs : WFState n s) : WFState n (wrapRound kek n t s) := by
  obtain ⟨hA, hR, hc⟩ := hs
  have hi : t % n < s.2.length := by rw [hR]; exact Nat.mod_lt t hn
  have hchunk : (s.2.getD (t % n) []).length = 8 := hc _ (getD_mem _ _ hi)
  have hbuf : (kek.encrypt (s.1 ++ s.2.getD (t % n) [])).length = 16 := by
    apply henc
    rw [List.length_append, hA, hchunk]
  refine ⟨?_, ?_, ?_⟩
  · show (xorBytes _ _).length = 8
    rw [xorBytes_length, be64_length, List.length_take, hbuf]
    decide
  · show (List.set _ _ _).length = n
    rw [List.length_set, hR]
  · intro c hcmem
    rcases List.mem_or_eq_of_mem_set hcmem with h | h
    · exact hc c h
    · subst h
      show (List.take _ (List.drop _ _)).length = 8
      rw [List.length_take, List.length_drop, hbuf]
      rfl

theorem unwrapRound_wrapRound (kek : BlockCipher) (hk : ValidCipher kek)
    (n t : Nat) (hn : 0 < n) (s : List Nat × List (List Nat))
    (hs : WFState n s) : unwrapRound kek n t (wrapRound kek n t s) = s := by
  obtain ⟨henc, hdec⟩ := hk
  obtain ⟨hA, hR, hc⟩ := hs
  have hi : t % n < s.2.length := by rw [hR]; exact Nat.mod_lt t hn
  have hchunk : (s.2.getD (t % n) []).length = 8 := hc _ (getD_mem _ _ hi)
  have hxlen : (s.1 ++ s.2.getD (t % n) []).length = 16 := by
    rw [List.length_append, hA, hchunk]
  have hbuf : (kek.encrypt (s.1 ++ s.2.getD (t % n) [])).length = 16 := henc _ hxlen
  have htake : (List.take 8 (kek.encrypt (s.1 ++ s.2.getD (t % n) []))).length = 8 := by
    rw [List.length_take, hbuf]
    rfl
  have hdrop : (List.drop 8 (kek.encrypt (s.1 ++ s.2.getD (t % n) []))).length = 8 := by
    rw [List.length_drop, hbuf]
  have hdroptake :
      (List.drop 8 (kek.encrypt (s.1 ++ s.2.getD (t % n) []))).take 8 =
        List.drop 8 (kek.encrypt (s.1 ++ s.2.getD (t % n) [])) :=
    List.take_of_length_le (le_of_eq hdrop)
  have hsetlen : t % n < (s.2.set (t % n)
      ((List.drop 8 (kek.encrypt (s.1 ++ s.2.getD (t % n) []))).take 8)).length := by
    rw [List.length_set]
    exact hi
  have hgetset : ((s.2.set (t % n)
        ((List.drop 8 (kek.encrypt (s.1 ++ s.2.getD (t % n) []))).take 8)).getD (t % n) []) =
      (List.drop 8 (kek.encrypt (s.1 ++ s.2.getD (t % n) []))).take 8 := by
    rw [List.getD_eq_getElem _ [] hsetlen]
    exact List.getElem_set_self hsetlen
  have hfst : (s.1 ++ s.2.getD (t % n) []).take 8 = s.1 := by
    conv => lhs; rw [← hA]
    exact List.take_left _ _
  have hsnd : (s.1 ++ s.2.getD (t % n) []).drop 8 = s.2.getD (t % n) [] := by
    conv => lhs; rw [← hA]
    exact List.drop_left _ _
  have htakechunk : (s.2.getD (t % n) []).take 8 = s.2.getD (t % n) [] :=
    List.take_of_length_le (le_of_eq hchunk)
  show (List.take keywrapChunkLen _, _) = s
  simp only [wrapRound, keywrapChunkLen]
  rw [xorBytes_cancel _ _ (by rw [htake, be64_length]), hgetset, hdroptake,
    List.take_append_drop, hdec _ hxlen, hfst, hsnd, List.set_set, htakechunk,
    set_getD_self _ _ hi]

theorem foldl_wf {σ : Type} (f : Nat → σ → σ) (P : σ → Prop)
    (hf : ∀ t s, P s → P (f t s)) :
    ∀ (l : List Nat) (s : σ), P s → P (l.foldl (fun st t => f t st) s)
  | [], _, hs => hs
  | t :: l, s, hs => foldl_wf f P hf l (f t s) (hf t s hs)

theorem foldl_range_rev_cancel {σ : Type} (f g : Nat → σ → σ) (P : σ → Prop)
    (hf : ∀ t s, P s → P (f t s)) (hgf : ∀ t s, P s → g t (f t s) = s) :
    ∀ (m : Nat) (s : σ), P s →
      ((List.range m).reverse).foldl (fun st t => g t st)
        ((List.range m).foldl (fun st t => f t st) s) = s := by
  intro m
  induction m with
  | zero => intro s _; rfl
  | succ m ih =>
    intro s hs
    rw [List.range_succ, List.foldl_append, List.reverse_append]
    simp only [List.reverse_cons, List.reverse_nil, List.nil_append,
      List.singleton_append, List.foldl_cons, List.foldl_nil]
    rw [hgf m _ (foldl_wf f P hf (List.range m) s hs)]
    exact ih s hs

theorem unwrapFold_wrapFold (kek : BlockCipher) (hk : ValidCipher kek)
    (n : Nat) (hn : 0 < n) (s : List Nat × List (List Nat)) (hs : WFState n s) :
    unwrapFold kek n (wrapFold kek n s) = s :=
  foldl_range_rev_cancel (wrapRound kek n) (unwrapRound kek n) (WFState n)
    (fun t s hs => wrapRound_wf kek hk.1 n t hn s hs)
    (fun t s hs => unwrapRound_wrapRound kek hk n t hn s hs)
    (6 * n) s hs

theorem wrapFold_wf (kek : BlockCipher)
    (henc : ∀ b : List Nat, b.length = 16 → (kek.encrypt b).length = 16)
    (n : Nat) (hn : 0 < n) (s : List Nat × List (List Nat)) (hs : WFState n s) :
    WFState n (wrapFold kek n s) :=
  foldl_wf (wrapRound kek n) (WFState n)
    (fun t s hs => wrapRound_wf kek henc n t hn s hs) (List.range (6 * n)) s hs

theorem toChunks_length (cek : List Nat) (n : Nat) : (toChunks cek n).length = n := by
  simp [toChunks]

theorem toChunks_mem_length (cek : List Nat) (n : Nat) (h : cek.length = 8 * n) :
    ∀ c ∈ toChunks cek n, c.length = 8 := by
  intro c hcmem
  simp only [toChunks, List.mem_map, List.mem_range] at hcmem
  obtain ⟨i, hi, rfl⟩ := hcmem
  simp only [keywrapChunkLen, List.length_take, List.length_drop, h]
  omega

theorem toChunks_wf (cek : List Nat) (n : Nat) (h : cek.length = 8 * n) :
    WFState n (keywrapDefaultIV, toChunks cek n) :=
  ⟨rfl, toChunks_length cek n, toChunks_mem_length cek n h⟩

theorem flatten_toChunks : ∀ (n : Nat) (cek : List Nat), cek.length = 8 * n →
    (toChunks cek n).flatten = cek
  | 0, cek, h => by
    have : cek = [] := List.eq_nil_of_length_eq_zero (by omega)
    simp [toChunks, this]
  | n + 1, cek, h => by
    have hsplit : (toChunks cek (n + 1)) =
        cek.take 8 :: toChunks (cek.drop 8) n := by
      unfold toChunks
      rw [List.range_succ_eq_map, List.map_cons, List.map_map]
      congr 1
      apply List.map_congr_left
      intro i _
      simp only [Function.comp_apply, Nat.succ_eq_add_one, keywrapChunkLen, List.drop_drop]
      congr 2
      omega
    rw [hsplit, List.flatten_cons, flatten_toChunks n (cek.drop 8) (by simp [h]; omega)]
    exact List.take_append_drop 8 cek

theorem flatten_length_eq (R : List (List Nat)) (hc : ∀ c ∈ R, c.length = 8) :
    R.flatten.length = 8 * R.length := by
  induction R with
  | nil => rfl
  | cons c R ih =>
    simp only [List.flatten_cons, List.length_append, List.length_cons,
      hc c (List.mem_cons_self c R), ih (fun d hd => hc d (List.mem_cons_of_mem c hd))]
    ring

theorem flatten_chunk_get : ∀ (R : List (List Nat)), (∀ c ∈ R, c.length = 8) →
    ∀ (i : Nat) (hi : i < R.length),
      (R.flatten.drop (i * 8)).take 8 = R.get ⟨i, hi⟩
  | c :: R, hc, 0, _ => by
    have h8 : c.length = 8 := hc c (List.mem_cons_self c R)
    simp only [Nat.zero_mul, List.drop_zero, List.flatten_cons, List.get]
    rw [← h8, List.take_left]
  | c :: R, hc, i + 1, hi => by
    have h8 : c.length = 8 := hc c (List.mem_cons_self c R)
    have : ((c :: R).flatten).drop ((i + 1) * 8) = R.flatten.drop (i * 8) := by
      have hstep : (i + 1) * 8 = c.length + i * 8 := by rw [h8]; ring
      rw [List.flatten_cons, hstep, ← List.drop_drop, List.drop_left]
    rw [this]
    exact flatten_chunk_get R (fun d hd => hc d (List.mem_cons_of_mem c hd)) i
      (Nat.lt_of_succ_lt_succ hi)

theorem parse_blocks (A : List Nat) (R : List (List Nat)) (hA : A.length = 8)
    (hc : ∀ c ∈ R, c.length = 8) :
    (List.range R.length).map
      (fun i => ((A ++ R.flatten).drop ((i + 1) * 8)).take 8) = R := by
  apply List.ext_getElem
  · simp
  intro i h1 h2
  rw [List.getElem_map, List.getElem_range]
  have hdropA : (A ++ R.flatten).drop ((i + 1) * 8) = R.flatten.drop (i * 8) := by
    have hstep : (i + 1) * 8 = A.length + i * 8 := by rw [hA]; ring
    rw [hstep, ← List.drop_drop, List.drop_left]
  rw [hdropA, flatten_chunk_get R hc i (by simpa using h2)]
  simp

end Keyenc

namespace Keyenc

/-- C1: for every KEK block cipher `k` and every CEK `m` whose length
is a positive multiple of 8 bytes, `Unwrap(k, Wrap(k, m))` succeeds
and returns exactly `m`. -/
theorem wrap_unwrap_roundtrip (k : BlockCipher) (hk : ValidCipher k)
    (m : List Nat) (hpos : 0 < m.length) (hmod : m.length % 8 = 0) :
    ∃ w, Wrap k m = .ok w ∧ Unwrap k w = .ok m := by
  have h8n : m.length = 8 * (m.length / 8) := by omega
  set n := m.length / 8 with hndef
  have hn : 0 < n := by omega
  have hwf0 : WFState n (keywrapDefaultIV, toChunks m n) := toChunks_wf m n h8n
  have hwfF : WFState n (wrapFold k n (keywrapDefaultIV, toChunks m n)) :=
    wrapFold_wf k hk.1 n hn _ hwf0
  set sf := wrapFold k n (keywrapDefaultIV, toChunks m n) with hsf
  refine ⟨sf.1 ++ sf.2.flatten, ?_, ?_⟩
  · simp only [Wrap]
    rw [if_neg (by omega : ¬ m.length % 8 ≠ 0)]
    rfl
  · set w := sf.1 ++ sf.2.flatten with hw
    have hwlen : w.length = 8 + 8 * n := by
      rw [hw, List.length_append, hwfF.1, flatten_length_eq sf.2 hwfF.2.2, hwfF.2.1]
    simp only [Unwrap]
    rw [if_neg (by omega : ¬ w.length % 8 ≠ 0), if_neg (by omega : ¬ w.length = 0)]
    have hn8 : w.length / keywrapChunkLen - 1 = n := by
      simp only [keywrapChunkLen]
      omega
    rw [hn8]
    have htake8 : w.take keywrapChunkLen = sf.1 := by
      rw [hw, show keywrapChunkLen = sf.1.length by rw [hwfF.1]; rfl]
      exact List.take_left _ _
    have hparse : ((List.range n).map fun i =>
        (w.drop ((i + 1) * keywrapChunkLen)).take keywrapChunkLen) = sf.2 := by
      rw [hw]
      have hp := parse_blocks sf.1 sf.2 hwfF.1 hwfF.2.2
      rw [hwfF.2.1] at hp
      simpa [keywrapChunkLen] using hp
    rw [htake8, hparse]
    have hpair : ((sf.1, sf.2) : List Nat × List (List Nat)) = sf := rfl
    rw [hpair, hsf, unwrapFold_wrapFold k hk n hn _ hwf0, if_pos rfl,
      flatten_toChunks n m h8n]

/-- Witness for C1 at a concrete cipher and CEK. -/
theorem wrap_unwrap_roundtrip_witness :
    ∃ w, Wrap idCipher [1, 2, 3, 4, 5, 6, 7, 8] = .ok w ∧
      Unwrap idCipher w = .ok [1, 2, 3, 4, 5, 6, 7, 8] :=
  wrap_unwrap_roundtrip idCipher ⟨fun _ h => h, fun _ _ => rfl⟩ _ (by decide) (by decide)

/-- C3 (amended): `Unwrap` fails with the input-shape error exactly
when the input length is not a multiple of 8; the only other
length-determined outcome is the Go panic on empty input.  There is no
minimum-length (≥ 24) check. -/
theorem unwrap_length_validation (k : BlockCipher) (c : List Nat) :
    (Unwrap k c = .error .inputShape ↔ c.length % 8 ≠ 0) ∧
    (Unwrap k c = .error .panicked ↔ c.length = 0) := by
  by_cases h1 : c.length % 8 = 0
  · by_cases h2 : c.length = 0
    · have h : Unwrap k c = .error .panicked := by
        simp only [Unwrap]
        rw [if_neg (by omega), if_pos h2]
      rw [h]
      simp [h1, h2]
    · have h : Unwrap k c = .error .integrity ∨ ∃ out, Unwrap k c = .ok out := by
        simp only [Unwrap]
        rw [if_neg (by omega), if_neg h2]
        split
        · right; exact ⟨_, rfl⟩
        · left; rfl
      rcases h with h | ⟨out, h⟩ <;> rw [h] <;> simp [h1, h2]
  · have h : Unwrap k c = .error .inputShape := by
      simp only [Unwrap]
      rw [if_pos h1]
    rw [h]
    refine ⟨by simp [h1], ?_⟩
    simp only [Except.error.injEq]
    constructor
    · intro he
      exact absurd he (by intro hq; cases hq)
    · intro h0
      exact absurd (by omega : c.length % 8 = 0) h1

/-- Counterexample to C3 as stated: an 8-byte input (shorter than the
claimed 24-byte minimum, and a multiple of 8) is not rejected with an
input-shape error — when it equals the default IV, `Unwrap` succeeds
and returns the empty CEK. -/
theorem unwrap_short_input_accepted :
    keywrapDefaultIV.length = 8 ∧ Unwrap idCipher keywrapDefaultIV = .ok [] :=
  ⟨rfl, rfl⟩

/-- C4 (amended): `Wrap` fails (with the input-shape error) exactly
when the CEK length is not a multiple of 8 — the empty CEK is accepted
and yields the bare default IV — and on any 8·n-byte CEK the output is
the transformed IV block followed by the n transformed key blocks,
(n+1)·8 bytes in total. -/
theorem wrap_shape (k : BlockCipher)
    (henc : ∀ b : List Nat, b.length = 16 → (k.encrypt b).length = 16)
    (cek : List Nat) :
    (Wrap k cek = .error .inputShape ↔ cek.length % 8 ≠ 0) ∧
    Wrap k [] = .ok keywrapDefaultIV ∧
    (cek.length % 8 = 0 → ∃ (A : List Nat) (R : List (List Nat)), Wrap k cek = .ok (A ++ R.flatten) ∧
      A.length = 8 ∧ R.length = cek.length / 8 ∧ ∀ c ∈ R, c.length = 8) := by
  refine ⟨?_, rfl, ?_⟩
  · by_cases h1 : cek.length % 8 = 0
    · have h : ∃ out, Wrap k cek = .ok out := by
        simp only [Wrap]
        rw [if_neg (by omega)]
        exact ⟨_, rfl⟩
      obtain ⟨out, h⟩ := h
      rw [h]
      simp [h1]
    · have h : Wrap k cek = .error .inputShape := by
        simp only [Wrap]
        rw [if_pos h1]
      rw [h]
      simp [h1]
  · intro h1
    by_cases hz : cek.length = 0
    · have hnil : cek = [] := List.eq_nil_of_length_eq_zero hz
      subst hnil
      exact ⟨keywrapDefaultIV, [], rfl, rfl, rfl, by simp⟩
    · have h8n : cek.length = 8 * (cek.length / 8) := by omega
      have hn : 0 < cek.length / 8 := by omega
      have hwf := wrapFold_wf k henc _ hn _ (toChunks_wf cek _ h8n)
      refine ⟨(wrapFold k (cek.length / 8) (keywrapDefaultIV, toChunks cek (cek.length / 8))).1,
        (wrapFold k (cek.length / 8) (keywrapDefaultIV, toChunks cek (cek.length / 8))).2,
        ?_, hwf.1, hwf.2.1, hwf.2.2⟩
      simp only [Wrap]
      rw [if_neg (by omega)]
      rfl

/-- Witness for C4's amended statement at concrete inputs. -/
theorem wrap_shape_witness :
    (Wrap idCipher [1, 2, 3] = .error .inputShape ↔ ([1, 2, 3] : List Nat).length % 8 ≠ 0) ∧
    (∃ (A : List Nat) (R : List (List Nat)),
      Wrap idCipher [9, 9, 9, 9, 9, 9, 9, 9] = .ok (A ++ R.flatten) ∧ A.length = 8 ∧
      R.length = ([9, 9, 9, 9, 9, 9, 9, 9] : List Nat).length / 8 ∧ ∀ c ∈ R, c.length = 8) :=
  ⟨(wrap_shape idCipher (fun _ h => h) [1, 2, 3]).1,
   (wrap_shape idCipher (fun _ h => h) [9, 9, 9, 9, 9, 9, 9, 9]).2.2 (by decide)⟩

/-- Counterexample to C4 as stated: the empty CEK — length 0, not a
*positive* multiple of 8 — is not rejected; `Wrap` succeeds and
returns the bare default IV. -/
theorem wrap_empty_accepted :
    ([] : List Nat).length % 8 = 0 ∧ ¬ 0 < ([] : List Nat).length ∧
    Wrap idCipher [] = .ok keywrapDefaultIV :=
  ⟨rfl, by decide, rfl⟩

/-- Modelled from the spec: the closed enumeration of key-encryption
algorithm identifiers (spec §3); the `jwa` package is not among the
source files. -/
inductive KeyEncryptionAlgorithm where
  | DIR | A128KW | A192KW | A256KW
  | ECDH_ES | ECDH_ES_A128KW | ECDH_ES_A192KW | ECDH_ES_A256KW
  | ECMR | RSA1_5 | RSA_OAEP | RSA_OAEP_256
  deriving DecidableEq, Repr

/-- Modelled from the spec: the JOSE registry names returned by
`alg.String()` for key-encryption algorithms. -/
def KeyEncryptionAlgorithm.name : KeyEncryptionAlgorithm → String
  | .DIR => "dir"
  | .A128KW => "A128KW"
  | .A192KW => "A192KW"
  | .A256KW => "A256KW"
  | .ECDH_ES => "ECDH-ES"
  | .ECDH_ES_A128KW => "ECDH-ES+A128KW"
  | .ECDH_ES_A192KW => "ECDH-ES+A192KW"
  | .ECDH_ES_A256KW => "ECDH-ES+A256KW"
  | .ECMR => "ECMR"
  | .RSA1_5 => "RSA1_5"
  | .RSA_OAEP => "RSA-OAEP"
  | .RSA_OAEP_256 => "RSA-OAEP-256"

/-- Modelled from the spec: the closed enumeration of
content-encryption algorithms (spec §3), consumed only to determine
the CEK length. -/
inductive ContentEncryptionAlgorithm where
  | A128GCM | A192GCM | A256GCM | A128CBC_HS256 | A192CBC_HS384 | A256CBC_HS512
  deriving DecidableEq, Repr

/-- Modelled from the spec: the JOSE registry names returned by
`alg.String()` for content-encryption algorithms. -/
def ContentEncryptionAlgorithm.name : ContentEncryptionAlgorithm → String
  | .A128GCM => "A128GCM"
  | .A192GCM => "A192GCM"
  | .A256GCM => "A256GCM"
  | .A128CBC_HS256 => "A128CBC-HS256"
  | .A192CBC_HS384 => "A192CBC-HS384"
  | .A256CBC_HS512 => "A256CBC-HS512"

/-- The content cipher as used by `ECDHESDecrypt.Decrypt`: only its
`KeySize()` accessor is consumed. -/
structure AesContentCipher where
  KeySize : Nat

/-- Modelled from the spec: `contentcipher.NewAES` (the
`jwe/internal/cipher` package is not among the source files); it
yields a cipher whose `KeySize` is the CEK length of the content
algorithm (16/24/32 octets for the GCM family, 32/48/64 for the
CBC-HMAC family, spec §3).  On the closed enumeration it never
fails. -/
def NewAES (alg : ContentEncryptionAlgorithm) : Except KeyencError AesContentCipher :=
  .ok ⟨match alg with
    | .A128GCM => 16
    | .A192GCM => 24
    | .A256GCM => 32
    | .A128CBC_HS256 => 32
    | .A192CBC_HS384 => 48
    | .A256CBC_HS512 => 64⟩

/-- `rsa.PublicKey`: only structural data, never inspected by the
constructors under study. -/
structure RSAPublicKey where
  N : Nat
  E : Nat

/-- `RSAPKCS15Decrypt` (fields as consumed by keyenc.go lines
410–472).  `bitLen` stands for `privkey.PublicKey.N.BitLen()`.
`generate` is the outcome of `d.generator.Generate()`, the random
fallback buffer.  `sessionKeyPrim` abstracts
`rsa.DecryptPKCS1v15SessionKey(rand, priv, enckey, cek)`: on a
primitive-level failure it returns an error; otherwise it returns the
final contents of the `cek` buffer — the recovered session key when
padding was valid and the lengths matched, the untouched random bytes
otherwise (the Go call mutates `cek` in place and so cannot change its
length). -/
structure RSAPKCS15Decrypt where
  alg : KeyEncryptionAlgorithm
  bitLen : Nat
  generate : Except Unit (List Nat)
  sessionKeyPrim : List Nat → List Nat → Except Unit (List Nat)

/-- `NewRSAPKCS15Decrypt` (keyenc.go lines 410–418):
`generator := keygen.NewRandom(keysize * 2)`.  `keygen.NewRandom` is
not among the source files; modelled from the spec ("pre-generate a
random fallback buffer of length 2·expectedCEKsize"): the generator
draws `keysize*2` bytes from the RNG stream `rng`. -/
def NewRSAPKCS15Decrypt (alg : KeyEncryptionAlgorithm) (privkeyBitLen keysize : Nat)
    (rng : Nat → List Nat)
    (prim : List Nat → List Nat → Except Unit (List Nat)) : RSAPKCS15Decrypt :=
  { alg := alg, bitLen := privkeyBitLen, generate := .ok (rng (keysize * 2)),
    sessionKeyPrim := prim }

/-- `RSAPKCS15Decrypt.Decrypt` (keyenc.go lines 426–472).  Note that
despite the comment in the source ("We are therefore deliberately
ignoring errors here"), the code checks the primitive's error and
returns it wrapped (`failed to decrypt via PKCS1v15`). -/
def RSAPKCS15Decrypt.Decrypt (d : RSAPKCS15Decrypt) (enckey : List Nat) :
    Except KeyencError (List Nat) :=
  let expectedlen := d.bitLen / 8
  if expectedlen ≠ enckey.length then .error .inputSize
  else
    match d.generate with
    | .error _ => .error .genFail
    | .ok cek =>
      match d.sessionKeyPrim enckey cek with
      | .error _ => .error .primFail
      | .ok cek2 => .ok cek2

set_option maxRecDepth 8192 in
/-- C2: evaluation at the failing input.  When the RSA primitive
reports an error — as `rsa.DecryptPKCS1v15SessionKey` does even for a
correct-length ciphertext whenever the modulus is smaller than
2·keysize+11 bytes (here: 2048-bit key, keysize 128) — `Decrypt`
returns a wrapped error instead of the random fallback buffer,
contradicting the claim (and the source's own comment). -/
theorem rsa_decrypt_prim_error_surfaces :
    RSAPKCS15Decrypt.Decrypt
      (NewRSAPKCS15Decrypt .RSA1_5 2048 128 (fun n => List.replicate n 0)
        (fun _ _ => .error ()))
      (List.replicate 256 0) = .error .primFail := rfl

/-- C6 (amended): the decrypter rejects any ciphertext whose length
differs from ⌊modulusBits/8⌋ (integer division, not the ceiling the
claim states) with a generic error, before invoking the RSA primitive:
the outcome is the same for every generator and every primitive. -/
theorem rsa_decrypt_length_validation (alg : KeyEncryptionAlgorithm)
    (bitLen keysize : Nat) (rng : Nat → List Nat)
    (prim : List Nat → List Nat → Except Unit (List Nat)) (enckey : List Nat)
    (h : enckey.length ≠ bitLen / 8) :
    (NewRSAPKCS15Decrypt alg bitLen keysize rng prim).Decrypt enckey =
      .error .inputSize := by
  simp only [RSAPKCS15Decrypt.Decrypt, NewRSAPKCS15Decrypt]
  rw [if_pos (Ne.symm h)]

/-- Witness for C6's amended statement. -/
theorem rsa_decrypt_length_validation_witness :
    (NewRSAPKCS15Decrypt .RSA1_5 16 1 (fun n => List.replicate n 0)
      (fun _ c => .ok c)).Decrypt [0] = .error .inputSize :=
  rsa_decrypt_length_validation .RSA1_5 16 1 _ _ [0] (by decide)

set_option maxRecDepth 8192 in
/-- Counterexample to C6 as stated: with a 2047-bit modulus,
⌈2047/8⌉ = 256 but the code compares against ⌊2047/8⌋ = 255, so a
256-byte ciphertext is rejected even though its length equals
⌈modulusBits/8⌉, and a 255-byte one passes the validation and reaches
the primitive. -/
theorem rsa_decrypt_ceil_counterexample :
    (2047 + 7) / 8 = 256 ∧
    RSAPKCS15Decrypt.Decrypt
      (NewRSAPKCS15Decrypt .RSA1_5 2047 16 (fun n => List.replicate n 0)
        (fun _ c => .ok c)) (List.replicate 256 0) = .error .inputSize ∧
    RSAPKCS15Decrypt.Decrypt
      (NewRSAPKCS15Decrypt .RSA1_5 2047 16 (fun n => List.replicate n 0)
        (fun _ c => .ok c)) (List.replicate 255 0) = .ok (List.replicate 32 0) :=
  ⟨rfl, rfl, rfl⟩

/-- C10: whenever `Decrypt` succeeds it returns the full fallback
buffer of length `keysize * 2` — both when PKCS#1 v1.5 decryption
succeeded in place and when the random bytes were silently kept — and
not the expected CEK length `keysize`. -/
theorem rsa_decrypt_buffer_length (alg : KeyEncryptionAlgorithm)
    (bitLen keysize : Nat) (rng : Nat → List Nat)
    (prim : List Nat → List Nat → Except Unit (List Nat)) (enckey out : List Nat)
    (hrng : ∀ n, (rng n).length = n)
    (hprim : ∀ ct buf res, prim ct buf = .ok res → res.length = buf.length)
    (hok : (NewRSAPKCS15Decrypt alg bitLen keysize rng prim).Decrypt enckey = .ok out) :
    out.length = keysize * 2 ∧ (0 < keysize → out.length ≠ keysize) := by
  simp only [RSAPKCS15Decrypt.Decrypt, NewRSAPKCS15Decrypt] at hok
  by_cases hif : bitLen / 8 ≠ enckey.length
  · rw [if_pos hif] at hok
    cases hok
  · rw [if_neg hif] at hok
    cases hres : prim enckey (rng (keysize * 2)) with
    | error e => rw [hres] at hok; cases hok
    | ok res =>
      rw [hres] at hok
      have hout : res = out := by injection hok
      subst hout
      have hlen : res.length = keysize * 2 := by
        rw [hprim _ _ _ hres, hrng]
      exact ⟨hlen, fun hk => by omega⟩

/-- Witness for C10 at a concrete decrypter and ciphertext. -/
theorem rsa_decrypt_buffer_length_witness :
    ([0, 0] : List Nat).length = 1 * 2 ∧ (0 < 1 → ([0, 0] : List Nat).length ≠ 1) :=
  rsa_decrypt_buffer_length .RSA1_5 16 1 (fun n => List.replicate n 0)
    (fun _ c => .ok c) [5, 5] [0, 0]
    (fun n => by simp)
    (fun _ _ _ h => by cases h; rfl)
    rfl

/-- `AESCGM` (fields as consumed by keyenc.go lines 27–71). -/
structure AESCGM where
  alg : KeyEncryptionAlgorithm
  sharedkey : List Nat

/-- `NewAESCGM` (keyenc.go lines 27–34): no validation of the
algorithm identifier is performed — every identifier is accepted. -/
def NewAESCGM (alg : KeyEncryptionAlgorithm) (sharedkey : List Nat) :
    Except KeyencError AESCGM :=
  .ok { alg := alg, sharedkey := sharedkey }

/-- `RSAOAEPEncrypt` (fields as consumed by keyenc.go lines 333–344). -/
structure RSAOAEPEncrypt where
  alg : KeyEncryptionAlgorithm
  pubkey : RSAPublicKey

/-- `NewRSAOAEPEncrypt` (keyenc.go lines 333–344). -/
def NewRSAOAEPEncrypt (alg : KeyEncryptionAlgorithm) (pubkey : RSAPublicKey) :
    Except KeyencError RSAOAEPEncrypt :=
  match alg with
  | .RSA_OAEP => .ok { alg := alg, pubkey := pubkey }
  | .RSA_OAEP_256 => .ok { alg := alg, pubkey := pubkey }
  | _ => .error .invalidAlg

/-- `RSAPKCSEncrypt` (fields as consumed by keyenc.go lines 346–358). -/
structure RSAPKCSEncrypt where
  alg : KeyEncryptionAlgorithm
  pubkey : RSAPublicKey

/-- `NewRSAPKCSEncrypt` (keyenc.go lines 346–358). -/
def NewRSAPKCSEncrypt (alg : KeyEncryptionAlgorithm) (pubkey : RSAPublicKey) :
    Except KeyencError RSAPKCSEncrypt :=
  match alg with
  | .RSA1_5 => .ok { alg := alg, pubkey := pubkey }
  | _ => .error .invalidAlg

/-- C8 (amended): the two RSA encrypter constructors validate the
algorithm identifier and fail on any unsupported one, but `NewAESCGM`
performs no validation at all: it succeeds on every identifier. -/
theorem facade_construction_validation (alg : KeyEncryptionAlgorithm)
    (key : List Nat) (pub : RSAPublicKey) :
    (∃ o, NewAESCGM alg key = .ok o) ∧
    (NewRSAOAEPEncrypt alg pub = .error .invalidAlg ↔
      ¬(alg = .RSA_OAEP ∨ alg = .RSA_OAEP_256)) ∧
    (NewRSAPKCSEncrypt alg pub = .error .invalidAlg ↔ alg ≠ .RSA1_5) := by
  refine ⟨⟨_, rfl⟩, ?_, ?_⟩ <;>
    cases alg <;> simp [NewRSAOAEPEncrypt, NewRSAPKCSEncrypt]

/-- Counterexample to C8 as stated: constructing the AES key-wrap
façade with `RSA1_5` — an identifier it certainly does not support —
succeeds instead of failing with an algorithm-mismatch error. -/
theorem newAESCGM_accepts_any_algorithm :
    NewAESCGM .RSA1_5 [] = .ok { alg := .RSA1_5, sharedkey := [] } := rfl

/-- The key size selected by `contentcipher.NewAES` for each content
algorithm. -/
def aesContentKeySize : ContentEncryptionAlgorithm → Nat
  | .A128GCM => 16
  | .A192GCM => 24
  | .A256GCM => 32
  | .A128CBC_HS256 => 32
  | .A192CBC_HS384 => 48
  | .A256CBC_HS512 => 64

/-- `ECDHESDecrypt` (fields as consumed by keyenc.go lines 122–217).
`deriveECDHES` abstracts `DeriveECDHES(algBytes, kw.apu, kw.apv,
kw.privkey, kw.pubkey, keysize)` with the decrypter's fixed
`apu`/`apv`/key material folded in, leaving the two arguments the
`Decrypt` dispatch chooses; `newCipher` abstracts
`aes.NewCipher(key)`. -/
structure ECDHESDecrypt where
  keyalg : KeyEncryptionAlgorithm
  contentalg : ContentEncryptionAlgorithm
  deriveECDHES : String → Nat → Except Unit (List Nat)
  newCipher : List Nat → Except Unit BlockCipher

/-- The `switch kw.keyalg` of `ECDHESDecrypt.Decrypt` (keyenc.go lines
178–199): select the KDF `AlgorithmID` (`algBytes`) and the output key
size.  `algBytes` defaults to the key algorithm's name and is
overridden to the content algorithm's name for `ECDH_ES`. -/
def ECDHESDecrypt.selectParams (kw : ECDHESDecrypt) :
    Except KeyencError (String × Nat) :=
  match kw.keyalg with
  | .ECDH_ES =>
    match NewAES kw.contentalg with
    | .error _ => .error .contentCipherFail
    | .ok c => .ok (kw.contentalg.name, c.KeySize)
  | .ECDH_ES_A128KW => .ok (kw.keyalg.name, 16)
  | .ECDH_ES_A192KW => .ok (kw.keyalg.name, 24)
  | .ECDH_ES_A256KW => .ok (kw.keyalg.name, 32)
  | _ => .error .invalidAlg

/-- `ECDHESDecrypt.Decrypt` (keyenc.go lines 166–217): derive the key
with the selected parameters; in direct mode (`ECDH_ES`) return it as
the CEK, otherwise use it as an AES key-wrap KEK to `Unwrap` the
encrypted key. -/
def ECDHESDecrypt.Decrypt (kw : ECDHESDecrypt) (enckey : List Nat) :
    Except KeyencError (List Nat) :=
  match kw.selectParams with
  | .error e => .error e
  | .ok (algStr, keysize) =>
    match kw.deriveECDHES algStr keysize with
    | .error _ => .error .deriveFail
    | .ok key =>
      if kw.keyalg = .ECDH_ES then .ok key
      else
        match kw.newCipher key with
        | .error _ => .error .cipherFail
        | .ok block => Unwrap block enckey

/-- C5: `ECDHESDecrypt.Decrypt` selects the KDF `AlgorithmID` and
output key size by algorithm — for `ECDH_ES` the content algorithm's
name and the content cipher's key length, returning the derived key
directly with no unwrap; for `ECDH_ES_A128KW`/`A192KW`/`A256KW` the
key algorithm's name with key size 16/24/32, returning the AES-KW
`Unwrap` of the encrypted key under the derived key — and fails on
every other identifier. -/
theorem ecdhes_decrypt_dispatch (ca : ContentEncryptionAlgorithm)
    (derive : String → Nat → Except Unit (List Nat))
    (newCipher : List Nat → Except Unit BlockCipher) (enckey : List Nat) :
    (ECDHESDecrypt.Decrypt ⟨.ECDH_ES, ca, derive, newCipher⟩ enckey =
      match derive ca.name (aesContentKeySize ca) with
      | .error _ => .error .deriveFail
      | .ok key => .ok key) ∧
    (ECDHESDecrypt.Decrypt ⟨.ECDH_ES_A128KW, ca, derive, newCipher⟩ enckey =
      match derive (KeyEncryptionAlgorithm.name .ECDH_ES_A128KW) 16 with
      | .error _ => .error .deriveFail
      | .ok key =>
        match newCipher key with
        | .error _ => .error .cipherFail
        | .ok block => Unwrap block enckey) ∧
    (ECDHESDecrypt.Decrypt ⟨.ECDH_ES_A192KW, ca, derive, newCipher⟩ enckey =
      match derive (KeyEncryptionAlgorithm.name .ECDH_ES_A192KW) 24 with
      | .error _ => .error .deriveFail
      | .ok key =>
        match newCipher key with
        | .error _ => .error .cipherFail
        | .ok block => Unwrap block enckey) ∧
    (ECDHESDecrypt.Decrypt ⟨.ECDH_ES_A256KW, ca, derive, newCipher⟩ enckey =
      match derive (KeyEncryptionAlgorithm.name .ECDH_ES_A256KW) 32 with
      | .error _ => .error .deriveFail
      | .ok key =>
        match newCipher key with
        | .error _ => .error .cipherFail
        | .ok block => Unwrap block enckey) ∧
    (ECDHESDecrypt.Decrypt ⟨.DIR, ca, derive, newCipher⟩ enckey = .error .invalidAlg) ∧
    (ECDHESDecrypt.Decrypt ⟨.A128KW, ca, derive, newCipher⟩ enckey = .error .invalidAlg) ∧
    (ECDHESDecrypt.Decrypt ⟨.A192KW, ca, derive, newCipher⟩ enckey = .error .invalidAlg) ∧
    (ECDHESDecrypt.Decrypt ⟨.A256KW, ca, derive, newCipher⟩ enckey = .error .invalidAlg) ∧
    (ECDHESDecrypt.Decrypt ⟨.ECMR, ca, derive, newCipher⟩ enckey = .error .invalidAlg) ∧
    (ECDHESDecrypt.Decrypt ⟨.RSA1_5, ca, derive, newCipher⟩ enckey = .error .invalidAlg) ∧
    (ECDHESDecrypt.Decrypt ⟨.RSA_OAEP, ca, derive, newCipher⟩ enckey = .error .invalidAlg) ∧
    (ECDHESDecrypt.Decrypt ⟨.RSA_OAEP_256, ca, derive, newCipher⟩ enckey = .error .invalidAlg) := by
  refine ⟨?_, rfl, rfl, rfl, rfl, rfl, rfl, rfl, rfl, rfl, rfl, rfl⟩
  show (match derive ca.name (aesContentKeySize ca) with
    | .error _ => (.error .deriveFail : Except KeyencError (List Nat))
    | .ok key => if true = true then .ok key else
        match newCipher key with
        | .error _ => .error .cipherFail
        | .ok block => Unwrap block enckey) = _
  cases derive ca.name (aesContentKeySize ca) <;> rfl

/-- An EC public key as exchanged by the ECMR oracle
(`ecdsa.PublicKey`): a curve identity plus affine coordinates.  The
Go code compares curves by interface identity (`respKey.Curve !=
ecCurve`), modelled by the numeric `curveId`. -/
structure ECPublicKey where
  curveId : Nat
  x : Int
  y : Int

/-- The operations `DeriveECMR` calls on `pubkey.Curve`
(`crypto/elliptic.Curve`), abstracted: the curve's identity, bit size,
point test, point addition and scalar multiplication. -/
structure CurveOps where
  id : Nat
  bitSize : Nat
  isOnCurve : Int → Int → Bool
  add : Int → Int → Int → Int → Int × Int
  scalarMult : Int → Int → List Nat → Int × Int

/-- `curveSize` (jwk/ecdsa.go lines 189–201): size of the curve in
bytes, `⌈bits/8⌉` computed as `div + (mod == 0 ? 0 : 1)`. -/
def curveSize (bits : Nat) : Nat :=
  let div := bits / 8
  let mod := bits % 8
  if mod = 0 then div else div + 1

/-- `newFixedSizeBuffer` (jwk/ecdsa.go lines 203–209): left-pad `data`
with zero bytes to exactly `length` bytes; panics (modelled as `none`)
when the data is longer than the requested width. -/
def newFixedSizeBuffer (data : List Nat) (length : Nat) : Option (List Nat) :=
  if data.length > length then none
  else some (List.replicate (length - data.length) 0 ++ data)

/-- `big.Int.Bytes()`: the minimal big-endian byte representation of a
non-negative integer (empty for zero). -/
def natToBytes : Nat → List Nat
  | 0 => []
  | n + 1 => natToBytes ((n + 1) / 256) ++ [(n + 1) % 256]
decreasing_by exact Nat.div_lt_self (Nat.succ_pos n) (by decide)

/-- `big.Int.SetBytes`: interpret a byte list as a big-endian
non-negative integer. -/
def bytesToNat (bs : List Nat) : Nat :=
  bs.foldl (fun acc b => acc * 256 + b) 0

/-- Modelled from the spec: `ecutil.AllocECPointBuffer` (the `ecutil`
package is not among the source files) encodes a curve coordinate
fixed-width big-endian, padded to `⌈bitsize/8⌉` bytes (spec §4.1). -/
def allocECPointBuffer (z : Int) (bits : Nat) : Option (List Nat) :=
  newFixedSizeBuffer (natToBytes z.toNat) (curveSize bits)

/-- `DeriveECMR` (keyenc.go lines 236–283).  External collaborators
are passed as oracles: `genKey` is the outcome of
`ecdsa.GenerateKey(ecCurve, rand.Reader)` (the ephemeral public point
and private scalar bytes `D.Bytes()`); `exchFn` is the exchange
function; `kdf` is `concatkdf.New(SHA256, alg, zBytes, apu, apv,
pubinfo, []).Read` producing `keysize` bytes.  The blinded key
`X = T + P` is sent to the oracle; the response key must be on the
expected curve (by identity) and the server key must satisfy the curve
equation; then `Z = R + (−(t·S))` feeds the Concat-KDF. -/
def DeriveECMR (ops : CurveOps) (alg : String) (apu apv : List Nat)
    (exchFn : ECPublicKey → Except Unit (ECPublicKey × ECPublicKey))
    (genKey : Except Unit (ECPublicKey × List Nat))
    (kdf : String → List Nat → List Nat → List Nat → List Nat → Nat →
      Except Unit (List Nat))
    (pubkey : ECPublicKey) (keysize : Nat) : Except KeyencError (List Nat) :=
  let pubinfo := be32 (keysize * 8)
  match genKey with
  | .error _ => .error .genFail
  | .ok (tempPub, tempD) =>
    let p := ops.add tempPub.x tempPub.y pubkey.x pubkey.y
    let xfrKey : ECPublicKey := ⟨ops.id, p.1, p.2⟩
    match exchFn xfrKey with
    | .error _ => .error .exchange
    | .ok (respKey, srvKey) =>
      if respKey.curveId ≠ ops.id then .error .curveMismatch
      else if ¬ ops.isOnCurve srvKey.x srvKey.y then .error .curveMismatch
      else
        let u := ops.scalarMult srvKey.x srvKey.y tempD
        let z := ops.add respKey.x respKey.y u.1 (-u.2)
        match allocECPointBuffer z.1 ops.bitSize with
        | none => .error .panicked
        | some zBytes =>
          match kdf alg zBytes apu apv pubinfo keysize with
          | .error _ => .error .kdfFail
          | .ok key => .ok key

/-- C7: `DeriveECMR` fails with the exchange error whenever the
exchange function returns an error, fails with the curve-mismatch
error whenever the response key's curve identity differs from the
expected curve or the server key is not on the curve, and only when
all validations pass does it derive a key via the Concat-KDF (the
result then being exactly the KDF's output on the computed `Z`). -/
theorem deriveECMR_validation (ops : CurveOps) (alg : String) (apu apv : List Nat)
    (exchFn : ECPublicKey → Except Unit (ECPublicKey × ECPublicKey))
    (kdf : String → List Nat → List Nat → List Nat → List Nat → Nat →
      Except Unit (List Nat))
    (pubkey : ECPublicKey) (keysize : Nat)
    (tempPub : ECPublicKey) (tempD : List Nat) (respKey srvKey : ECPublicKey) :
    (exchFn ⟨ops.id, (ops.add tempPub.x tempPub.y pubkey.x pubkey.y).1,
        (ops.add tempPub.x tempPub.y pubkey.x pubkey.y).2⟩ = .error () →
      DeriveECMR ops alg apu apv exchFn (.ok (tempPub, tempD)) kdf pubkey keysize =
        .error .exchange) ∧
    (exchFn ⟨ops.id, (ops.add tempPub.x tempPub.y pubkey.x pubkey.y).1,
        (ops.add tempPub.x tempPub.y pubkey.x pubkey.y).2⟩ = .ok (respKey, srvKey) →
      respKey.curveId ≠ ops.id →
      DeriveECMR ops alg apu apv exchFn (.ok (tempPub, tempD)) kdf pubkey keysize =
        .error .curveMismatch) ∧
    (exchFn ⟨ops.id, (ops.add tempPub.x tempPub.y pubkey.x pubkey.y).1,
        (ops.add tempPub.x tempPub.y pubkey.x pubkey.y).2⟩ = .ok (respKey, srvKey) →
      ops.isOnCurve srvKey.x srvKey.y = false →
      DeriveECMR ops alg apu apv exchFn (.ok (tempPub, tempD)) kdf pubkey keysize =
        .error .curveMismatch) ∧
    (exchFn ⟨ops.id, (ops.add tempPub.x tempPub.y pubkey.x pubkey.y).1,
        (ops.add tempPub.x tempPub.y pubkey.x pubkey.y).2⟩ = .ok (respKey, srvKey) →
      respKey.curveId = ops.id →
      ops.isOnCurve srvKey.x srvKey.y = true →
      DeriveECMR ops alg apu apv exchFn (.ok (tempPub, tempD)) kdf pubkey keysize =
        match allocECPointBuffer
            (ops.add respKey.x respKey.y
              (ops.scalarMult srvKey.x srvKey.y tempD).1
              (-(ops.scalarMult srvKey.x srvKey.y tempD).2)).1 ops.bitSize with
        | none => .error .panicked
        | some zBytes =>
          match kdf alg zBytes apu apv (be32 (keysize * 8)) keysize with
          | .error _ => .error .kdfFail
          | .ok key => .ok key) := by
  refine ⟨?_, ?_, ?_, ?_⟩
  · intro hx
    simp only [DeriveECMR, hx]
  · intro hx hc
    simp only [DeriveECMR, hx]
    rw [if_pos hc]
  · intro hx hoff
    simp only [DeriveECMR, hx, hoff]
    split
    · rfl
    · simp
  · intro hx hc hon
    simp only [DeriveECMR, hx]
    rw [if_neg (by simp [hc]), if_neg (by simp [hon])]

/-- Witness for C7 at concrete oracles: one instantiation per
validation scenario. -/
theorem deriveECMR_validation_witness :
    (DeriveECMR ⟨1, 8, fun _ _ => true, fun a b c d => (a + c, b + d),
        fun a b _ => (a, b)⟩ "ECMR" [] []
      (fun _ => .error ()) (.ok (⟨1, 0, 0⟩, [1]))
      (fun _ z _ _ _ _ => .ok z) ⟨1, 0, 0⟩ 2 = .error .exchange) ∧
    (DeriveECMR ⟨1, 8, fun _ _ => true, fun a b c d => (a + c, b + d),
        fun a b _ => (a, b)⟩ "ECMR" [] []
      (fun _ => .ok (⟨2, 0, 0⟩, ⟨1, 0, 0⟩)) (.ok (⟨1, 0, 0⟩, [1]))
      (fun _ z _ _ _ _ => .ok z) ⟨1, 0, 0⟩ 2 = .error .curveMismatch) ∧
    (DeriveECMR ⟨1, 8, fun _ _ => false, fun a b c d => (a + c, b + d),
        fun a b _ => (a, b)⟩ "ECMR" [] []
      (fun _ => .ok (⟨1, 0, 0⟩, ⟨1, 0, 0⟩)) (.ok (⟨1, 0, 0⟩, [1]))
      (fun _ z _ _ _ _ => .ok z) ⟨1, 0, 0⟩ 2 = .error .curveMismatch) ∧
    (DeriveECMR ⟨1, 8, fun _ _ => true, fun a b c d => (a + c, b + d),
        fun a b _ => (a, b)⟩ "ECMR" [] []
      (fun _ => .ok (⟨1, 0, 0⟩, ⟨1, 0, 0⟩)) (.ok (⟨1, 0, 0⟩, [1]))
      (fun _ z _ _ _ _ => .ok z) ⟨1, 0, 0⟩ 2 =
      match allocECPointBuffer 0 8 with
      | none => .error .panicked
      | some zBytes => .ok zBytes) :=
  ⟨(deriveECMR_validation _ "ECMR" [] [] _ _ ⟨1, 0, 0⟩ 2 ⟨1, 0, 0⟩ [1] ⟨1, 0, 0⟩
      ⟨1, 0, 0⟩).1 rfl,
   (deriveECMR_validation _ "ECMR" [] [] _ _ ⟨1, 0, 0⟩ 2 ⟨1, 0, 0⟩ [1] ⟨2, 0, 0⟩
      ⟨1, 0, 0⟩).2.1 rfl (by decide),
   (deriveECMR_validation _ "ECMR" [] [] _ _ ⟨1, 0, 0⟩ 2 ⟨1, 0, 0⟩ [1] ⟨1, 0, 0⟩
      ⟨1, 0, 0⟩).2.2.1 rfl rfl,
   (deriveECMR_validation _ "ECMR" [] [] _ _ ⟨1, 0, 0⟩ 2 ⟨1, 0, 0⟩ [1] ⟨1, 0, 0⟩
      ⟨1, 0, 0⟩).2.2.2 rfl rfl rfl⟩

theorem bytesToNat_append_digit (l : List Nat) (b : Nat) :
    bytesToNat (l ++ [b]) = bytesToNat l * 256 + b := by
  unfold bytesToNat
  rw [List.foldl_append, List.foldl_cons, List.foldl_nil]

theorem bytesToNat_natToBytes (x : Nat) : bytesToNat (natToBytes x) = x := by
  induction x using Nat.strong_induction_on with
  | _ x ih =>
    match x with
    | 0 => simp [natToBytes, bytesToNat]
    | n + 1 =>
      rw [natToBytes, bytesToNat_append_digit,
        ih ((n + 1) / 256) (Nat.div_lt_self (Nat.succ_pos n) (by decide))]
      omega

theorem foldl_byte_zeros (k : Nat) :
    (List.replicate k 0).foldl (fun acc b => acc * 256 + b) 0 = 0 := by
  induction k with
  | zero => rfl
  | succ k ih =>
    rw [List.replicate_succ, List.foldl_cons]
    simpa using ih

theorem bytesToNat_pad (k : Nat) (bs : List Nat) :
    bytesToNat (List.replicate k 0 ++ bs) = bytesToNat bs := by
  unfold bytesToNat
  rw [List.foldl_append, foldl_byte_zeros]

/-- C9: the fixed-width EC coordinate codec round-trips: for every
non-negative integer `x` whose minimal big-endian representationfits
in `⌈bitsize/8⌉` bytes, `newFixedSizeBuffer` produces exactly
`curveSize bits = ⌈bits/8⌉` bytes (left-padded with zeros) and
decoding (`big.Int.SetBytes`) recovers `x`. -/
theorem fixed_width_codec_roundtrip (bits x : Nat)
    (h : (natToBytes x).length ≤ curveSize bits) :
    curveSize bits = (bits + 7) / 8 ∧
    ∃ buf, newFixedSizeBuffer (natToBytes x) (curveSize bits) = some buf ∧
      buf.length = curveSize bits ∧ bytesToNat buf = x := by
  refine ⟨?_, ?_⟩
  · simp only [curveSize]
    split <;> omega
  refine ⟨List.replicate (curveSize bits - (natToBytes x).length) 0 ++ natToBytes x,
    ?_, ?_, ?_⟩
  · unfold newFixedSizeBuffer
    rw [if_neg (by omega)]
  · rw [List.length_append, List.length_replicate]
    omega
  · rw [bytesToNat_pad]
    exact bytesToNat_natToBytes x

/-- Witness for C9: `x = 300` on a 10-bit curve size
(`⌈10/8⌉ = 2` bytes; `300 = 0x012C` encodes as `[1, 44]`). -/
theorem fixed_width_codec_roundtrip_witness :
    curveSize 10 = (10 + 7) / 8 ∧
    ∃ buf, newFixedSizeBuffer (natToBytes 300) (curveSize 10) = some buf ∧
      buf.length = curveSize 10 ∧ bytesToNat buf = 300 :=
  fixed_width_codec_roundtrip 10 300 (by simp [natToBytes, curveSize])

end Keyenc
